import Mathlib

/-!
Shallow embedding of `wapiti/operations/template_parser.py`: a Mediawiki
template-reference lexer, recursive-descent parser and reference builder.

Python values flowing through the parser are modelled by `Value`:
`None`, `int`, `float` (kept as its source text — no numeric claim below
inspects a float's magnitude), `str`, the parsed template dict
`{'name': ..., 'parameters': [...]}`, and the empty dict `{}` returned by
`match_template` when the first token is not `BEGIN`.

The parser's mutable `TokenStream` becomes explicit state passing over
`TokenStream`; Python exceptions (the `assert` in `match_end`, the
`UnboundLocalError`s reachable in `match_parameters`/`manage_pairs`)
become an `Except PErr` result.  Recursion is fueled: `parse` supplies
fuel that dominates the token count, and the fuel-exhaustion branch is a
distinct error so that no theorem can mistake it for source behaviour.
-/

/-- `Arg`/`Kwarg` namedtuples from the source, parametric so that `Value`
can nest them. -/
inductive PEntry (α : Type) where
  | arg (value : α)
  | kwarg (key value : α)
deriving DecidableEq

/-- A Python value as used by the template parser. -/
inductive Value where
  | pyNone
  | int (n : Int)
  | float (text : String)
  | str (s : String)
  | dict (name : Value) (parameters : List (PEntry Value))
  | emptyDict

/-- The `name` field of the `Token` namedtuple: one of the five lexer
token names, or the `None` carried by the synthetic end-of-stream token
returned by `advance`. -/
inductive TokName where
  | BEGIN
  | END
  | ATOM
  | EQUAL
  | PARAMETER
  | NONE
deriving DecidableEq

/-- The `Token` namedtuple: `Token = namedtuple('Token', 'name value')`. -/
structure Tok where
  name : TokName
  value : Value

/-- Python whitespace as stripped by `str.strip()` (ASCII fragment). -/
def isPySpace (c : Char) : Bool :=
  c = ' ' || c = '\t' || c = '\n' || c = '\r' || c = '\x0b' || c = '\x0c'

/-- `token.strip()`. -/
def pyStrip (s : String) : String :=
  String.mk (((s.data.dropWhile isPySpace).reverse.dropWhile isPySpace).reverse)

/-- Value of a nonempty decimal digit run. -/
def digitsVal (ds : List Char) : Nat :=
  ds.foldl (fun a c => a * 10 + (c.toNat - '0'.toNat)) 0

/-- Python `int(s)` on a string: optional surrounding whitespace, optional
sign, one or more decimal digits; anything else raises `ValueError`
(modelled as `none`). -/
def tryParseInt (s : String) : Option Int :=
  match (pyStrip s).data with
  | '+' :: ds =>
      if !ds.isEmpty && ds.all Char.isDigit then some (Int.ofNat (digitsVal ds)) else none
  | '-' :: ds =>
      if !ds.isEmpty && ds.all Char.isDigit then some (-(Int.ofNat (digitsVal ds))) else none
  | ds =>
      if !ds.isEmpty && ds.all Char.isDigit then some (Int.ofNat (digitsVal ds)) else none

/-- Exponent suffix of a float literal: empty, or `e`/`E`, optional sign,
one or more digits. -/
def floatExp (cs : List Char) : Bool :=
  match cs with
  | [] => true
  | 'e' :: r =>
      let r2 := match r with | '+' :: t => t | '-' :: t => t | t => t
      !r2.isEmpty && r2.all Char.isDigit
  | 'E' :: r =>
      let r2 := match r with | '+' :: t => t | '-' :: t => t | t => t
      !r2.isEmpty && r2.all Char.isDigit
  | _ => false

/-- Mantissa-and-exponent body of a float literal (sign already removed):
`digits [. digits*] | . digits+`, then an optional exponent. -/
def floatBody (cs : List Char) : Bool :=
  let d1 := cs.takeWhile Char.isDigit
  let r1 := cs.dropWhile Char.isDigit
  match r1 with
  | '.' :: r2 =>
      let d2 := r2.takeWhile Char.isDigit
      let r3 := r2.dropWhile Char.isDigit
      (!d1.isEmpty || !d2.isEmpty) && floatExp r3
  | _ => !d1.isEmpty && floatExp r1

/-- Drop one leading `+`/`-`. -/
def stripSign (cs : List Char) : List Char :=
  match cs with
  | '+' :: r => r
  | '-' :: r => r
  | r => r

/-- Whether Python `float(s)` accepts `s`: optional whitespace and sign,
then a numeric body or (case-insensitively) `inf`/`infinity`/`nan`. -/
def pyFloatParses (s : String) : Bool :=
  let cs := stripSign (pyStrip s).data
  let low := cs.map Char.toLower
  low == ['i', 'n', 'f'] || low == "infinity".data || low == ['n', 'a', 'n'] ||
    floatBody cs

/-- The `RuntimeError('unknown token ...')` raised at the end of
`atomize` when every converter has failed. -/
inductive AtomErr where
  | unknownToken (t : String)

/-- First converter of `atomize`: `int`. -/
def convertInt (s : String) : Option Value :=
  (tryParseInt s).map Value.int

/-- Second converter of `atomize`: `float`.  The accepted literal is kept
as its text. -/
def convertFloat (s : String) : Option Value :=
  if pyFloatParses s then some (Value.float s) else none

/-- Third converter of `atomize`: `str`, which never raises on a string
argument. -/
def convertStr (s : String) : Option Value :=
  some (Value.str s)

/-- `atomize(token)`: strip, then try `int`, `float`, `str` in order,
first success wins; the trailing `raise RuntimeError` fires only if all
three fail. -/
def atomize (token : String) : Except AtomErr Value :=
  let t := pyStrip token
  match convertInt t with
  | some v => Except.ok v
  | none =>
      match convertFloat t with
      | some v => Except.ok v
      | none =>
          match convertStr t with
          | some v => Except.ok v
          | none => Except.error (AtomErr.unknownToken t)

/-- The value `atomize` actually returns (the error branch is
unreachable, as proved below). -/
def atomizeOk (token : String) : Value :=
  let t := pyStrip token
  match convertInt t with
  | some v => v
  | none =>
      match convertFloat t with
      | some v => v
      | none => Value.str t

/-- Lexer token for `{{`. -/
def beginTok : Tok := ⟨TokName.BEGIN, Value.str "\x7b\x7b"⟩

/-- Lexer token for `}}`. -/
def endTok : Tok := ⟨TokName.END, Value.str "\x7d\x7d"⟩

/-- Lexer token for `=`. -/
def equalTok : Tok := ⟨TokName.EQUAL, Value.str "="⟩

/-- Lexer token for `|`. -/
def paramTok : Tok := ⟨TokName.PARAMETER, Value.str "|"⟩

/-- Lexer token for an atom run. -/
def atomTok (v : Value) : Tok := ⟨TokName.ATOM, v⟩

/-- The synthetic `Token(None, None)` that `advance` yields at
end-of-stream. -/
def eofTok : Tok := ⟨TokName.NONE, Value.pyNone⟩

/-- A character the `[^|{}=]+` atom pattern accepts. -/
def isAtomChar (c : Char) : Bool :=
  c ≠ '|' && c ≠ '{' && c ≠ '}' && c ≠ '='

/-- Prepend a token to a scan result. -/
def consTok (t : Tok) (r : List Tok × List Char) : List Tok × List Char :=
  (t :: r.1, r.2)

/-- One pass of `re.Scanner.scan` over the five patterns, in the source's
priority order (`{{`, `}}`, atom run, `=`, `|`).  At a position no
pattern matches — a lone `{` or `}` — scanning stops and the unmatched
remainder is returned, exactly as `re.Scanner.scan` does.  Fuel is the
scan position budget; `lexScan` supplies the input length, which always
suffices since every match consumes at least one character. -/
def lexScanF : Nat → List Char → List Tok × List Char
  | 0, cs => ([], cs)
  | Nat.succ fuel, cs =>
      match cs with
      | [] => ([], [])
      | c :: rest =>
          if c = '{' then
            match rest with
            | c2 :: rest2 =>
                if c2 = '{' then consTok beginTok (lexScanF fuel rest2)
                else ([], c :: rest)
            | [] => ([], c :: rest)
          else if c = '}' then
            match rest with
            | c2 :: rest2 =>
                if c2 = '}' then consTok endTok (lexScanF fuel rest2)
                else ([], c :: rest)
            | [] => ([], c :: rest)
          else if c = '=' then consTok equalTok (lexScanF fuel rest)
          else if c = '|' then consTok paramTok (lexScanF fuel rest)
          else
            consTok (atomTok (atomizeOk (String.mk (c :: rest.takeWhile isAtomChar))))
              (lexScanF fuel (rest.dropWhile isAtomChar))

/-- `lex.scan(s)`: the token list and the unconsumed remainder. -/
def lexScan (cs : List Char) : List Tok × List Char :=
  lexScanF cs.length cs

/-- `lex.scan(s)[0]`, as used by `parse`. -/
def lexTokens (s : String) : List Tok :=
  (lexScan s.data).1

/-- `TokenStream`: the iterator's remaining tokens plus the single
`pushed` slot.  `violated` is a ghost flag recording whether a pushback
ever overwrote a pending pushed token (the behaviour is unchanged: the
slot is overwritten either way, as in the source). -/
structure TokenStream where
  pushed : Option Tok
  rest : List Tok
  violated : Bool

/-- `advance(tokens)`: `next(tokens, Token(None, None))` — the pushed
token if pending, else the next stream token, else the synthetic
end-of-stream token. -/
def advance (st : TokenStream) : Tok × TokenStream :=
  match st.pushed with
  | some t => (t, { st with pushed := none })
  | none =>
      match st.rest with
      | [] => (eofTok, st)
      | t :: r => (t, { st with rest := r })

/-- `tokens.pushed = token`.  The source assigns unconditionally; the
ghost flag records whether a pending token was overwritten. -/
def pushBack (t : Tok) (st : TokenStream) : TokenStream :=
  { pushed := some t, rest := st.rest, violated := st.violated || st.pushed.isSome }

/-- Parse-time failures: the `assert` in `match_end` (carrying the
offending token's name, as its message does), the two
`UnboundLocalError`s reachable in `match_parameters`/`manage_pairs`, and
fuel exhaustion (never reached by `parse`'s fuel on terminating runs). -/
inductive PErr where
  | assertEnd (got : TokName)
  | unboundLocalIdxCycle
  | unboundLocalPair
  | outOfFuel
deriving DecidableEq

/-- One `pair_manager.send((idx, value))` of the `manage_pairs`
coroutine: a `None` value is skipped; index 0 appends a fresh
`[None, None]` pair and writes its slot 0; index 1 writes slot 1 of the
most recently created pair (`pairs` is append-only, so that pair is the
last element; if no pair was ever created, the coroutine's `pair`
variable is unbound). -/
def pairsSend (pairs : List (Value × Value)) (idx : Nat) (value : Value) :
    Except PErr (List (Value × Value)) :=
  match value with
  | Value.pyNone => Except.ok pairs
  | v =>
      if idx = 0 then Except.ok (pairs ++ [(v, Value.pyNone)])
      else
        match pairs.getLast? with
        | some last => Except.ok (pairs.dropLast ++ [(last.1, v)])
        | none => Except.error PErr.unboundLocalPair

/-- Line 146: `Arg(pair[0]) if pair[1] is None else Kwarg(*pair)`. -/
def classifyPairs (pairs : List (Value × Value)) : List (PEntry Value) :=
  pairs.map (fun p =>
    match p.2 with
    | Value.pyNone => PEntry.arg p.1
    | v => PEntry.kwarg p.1 v)

/-- `match_atom`: advance; a non-`ATOM` token is pushed back and `None`
is returned, an `ATOM` token yields its coerced value. -/
def matchAtom (st : TokenStream) : Option Value × TokenStream :=
  let (token, st1) := advance st
  if token.name = TokName.ATOM then (some token.value, st1)
  else (none, pushBack token st1)

/-- `match_end`: advance and `assert token.name == 'END'`. -/
def matchEnd (st : TokenStream) : Except PErr Unit × TokenStream :=
  let (token, st1) := advance st
  if token.name = TokName.END then (Except.ok (), st1)
  else (Except.error (PErr.assertEnd token.name), st1)

mutual

/-- `match_template`: advance; a non-`BEGIN` token is pushed back and the
empty dict returned.  Otherwise the name is an atom, or failing that a
nested template; then parameters, then a mandatory `END`. -/
def matchTemplate : Nat → TokenStream → Except PErr Value × TokenStream
  | 0, st => (Except.error PErr.outOfFuel, st)
  | Nat.succ fuel, st =>
      let (token, st1) := advance st
      if token.name = TokName.BEGIN then
        match matchAtom st1 with
        | (some name, st2) => matchTemplateTail fuel name st2
        | (none, st2) =>
            match matchTemplate fuel st2 with
            | (Except.error e, st3) => (Except.error e, st3)
            | (Except.ok name, st3) => matchTemplateTail fuel name st3
      else (Except.ok Value.emptyDict, pushBack token st1)

/-- The rest of `match_template` after the name is known: lines 96–101. -/
def matchTemplateTail (fuel : Nat) (name : Value) (st : TokenStream) :
    Except PErr Value × TokenStream :=
  match matchParameters fuel [] none st with
  | (Except.error e, st1) => (Except.error e, st1)
  | (Except.ok entries, st1) =>
      match matchEnd st1 with
      | (Except.error e, st2) => (Except.error e, st2)
      | (Except.ok _, st2) => (Except.ok (Value.dict name entries), st2)

/-- The `while True` loop of `match_parameters`.  `pairs` is the
assembled pair list, `idxCycle` the `itertools.cycle([0, 1])` iterator —
`none` before any `PARAMETER` token has created it (reading it then is
the source's `UnboundLocalError`), `some i` when its next output is `i`.
`PARAMETER` recreates the cycle and sends `(0, None)` (a no-op for the
pair list); `ATOM`/`BEGIN` send the value at the cycle's next index
(`next(idx_cycle)` is evaluated before the nested `match_template`);
`EQUAL` is skipped; anything else ends the loop, is pushed back, and the
pairs are classified into `Arg`/`Kwarg` entries. -/
def matchParameters : Nat → List (Value × Value) → Option Nat → TokenStream →
    Except PErr (List (PEntry Value)) × TokenStream
  | 0, _, _, st => (Except.error PErr.outOfFuel, st)
  | Nat.succ fuel, pairs, idxCycle, st =>
      let (token, st1) := advance st
      match token.name with
      | TokName.PARAMETER =>
          match pairsSend pairs 0 Value.pyNone with
          | Except.error e => (Except.error e, st1)
          | Except.ok pairs2 => matchParameters fuel pairs2 (some 0) st1
      | TokName.ATOM =>
          match idxCycle with
          | none => (Except.error PErr.unboundLocalIdxCycle, st1)
          | some i =>
              match pairsSend pairs i token.value with
              | Except.error e => (Except.error e, st1)
              | Except.ok pairs2 => matchParameters fuel pairs2 (some (1 - i)) st1
      | TokName.BEGIN =>
          match idxCycle with
          | none => (Except.error PErr.unboundLocalIdxCycle, pushBack token st1)
          | some i =>
              match matchTemplate fuel (pushBack token st1) with
              | (Except.error e, st3) => (Except.error e, st3)
              | (Except.ok tmpl, st3) =>
                  match pairsSend pairs i tmpl with
                  | Except.error e => (Except.error e, st3)
                  | Except.ok pairs2 => matchParameters fuel pairs2 (some (1 - i)) st3
      | TokName.EQUAL => matchParameters fuel pairs idxCycle st1
      | _ => (Except.ok (classifyPairs pairs), pushBack token st1)

end

/-- Fuel handed to the parser: comfortably dominates the number of
recursive calls, each of which either consumes a stream token or
terminates at once. -/
def parseFuel (s : String) : Nat :=
  2 * (lexTokens s).length + 4

/-- The token stream `parse` builds: `TokenStream(lex.scan(s)[0])`. -/
def initStream (s : String) : TokenStream :=
  { pushed := none, rest := lexTokens s, violated := false }

/-- `parse(s)` with its final stream state exposed. -/
def parseFull (s : String) : Except PErr Value × TokenStream :=
  matchTemplate (parseFuel s) (initStream s)

/-- `parse(s) = match_template(TokenStream(lex.scan(s)[0]))`. -/
def parse (s : String) : Except PErr Value :=
  (parseFull s).1

/-- The `TemplateReference` class: name, positional args, keyword
mapping. -/
structure TemplateReference where
  name : Value
  args : List Value
  kwargs : List (Value × Value)

/-- Failures of `TemplateReference.from_string`: a propagated parse
failure, or the `KeyError` raised when the parsed dict lacks the
`'name'`/`'parameters'` keys (the empty-dict case; `['parameters']` is
evaluated first). -/
inductive RefErr where
  | parseFailure (e : PErr)
  | keyError (key : String)

/-- `[p.value for p in parameters if isinstance(p, Arg)]`. -/
def argValues (ps : List (PEntry Value)) : List Value :=
  ps.filterMap (fun p =>
    match p with
    | PEntry.arg v => some v
    | PEntry.kwarg _ _ => none)

/-- `[(p.key, p.value) for p in parameters if isinstance(p, Kwarg)]`. -/
def kwargPairs (ps : List (PEntry Value)) : List (Value × Value) :=
  ps.filterMap (fun p =>
    match p with
    | PEntry.arg _ => none
    | PEntry.kwarg k v => some (k, v))

/-- Python `==` on the key values the kwargs dict is built from.  The
templates this parser handles key their entries by atoms; equality on
`int`/`str`/`None` keys is exact, float keys compare by literal text
(the only float comparisons exercised are between identical literals),
and dict-valued keys — which CPython would reject as unhashable before
ever comparing — compare unequal. -/
def keyEq : Value → Value → Bool
  | Value.pyNone, Value.pyNone => true
  | Value.int a, Value.int b => a == b
  | Value.float a, Value.float b => a == b
  | Value.str a, Value.str b => a == b
  | _, _ => false

/-- One `dict` insertion: an existing equal key has its value replaced
(the original key object is kept), a new key is appended (insertion
order preserved). -/
def pyDictInsert (d : List (Value × Value)) (kv : Value × Value) :
    List (Value × Value) :=
  if d.any (fun p => keyEq p.1 kv.1) then
    d.map (fun p => if keyEq p.1 kv.1 then (p.1, kv.2) else p)
  else d ++ [kv]

/-- `dict(pairs)`: insert the pairs left to right — later pairs with an
equal key overwrite earlier ones. -/
def pyDict (l : List (Value × Value)) : List (Value × Value) :=
  l.foldl pyDictInsert []

/-- Lookup in the modelled dict. -/
def dictLookup (d : List (Value × Value)) (k : Value) : Option Value :=
  (d.find? (fun p => keyEq p.1 k)).map (fun p => p.2)

/-- `TemplateReference.from_string`: parse, then read
`parsed_tmpl['parameters']` (a `KeyError` on the empty dict) to build
`args` and `kwargs`, and `parsed_tmpl['name']` for the name. -/
def fromString (text : String) : Except RefErr TemplateReference :=
  match parse text with
  | Except.error e => Except.error (RefErr.parseFailure e)
  | Except.ok v =>
      match v with
      | Value.dict name ps =>
          Except.ok ⟨name, argValues ps, pyDict (kwargPairs ps)⟩
      | _ => Except.error (RefErr.keyError "parameters")

/-- Name of the first token of a token list (`NONE` when empty, matching
the synthetic token `advance` would yield). -/
def headTokName (ts : List Tok) : TokName :=
  match ts with
  | [] => TokName.NONE
  | t :: _ => t.name

/-- Whether a character list starts with `c`. -/
def headIs (c : Char) : List Char → Bool
  | [] => false
  | d :: _ => d = c

/-- Whether the scanner is stuck at the head of `cs`: a `{` not followed
by `{`, or a `}` not followed by `}` — the only positions none of the
five patterns match. -/
def loneBraceStuck (cs : List Char) : Bool :=
  match cs with
  | [] => false
  | c :: rest => (c = '{' && !headIs '{' rest) || (c = '}' && !headIs '}' rest)

/-- A stream containing no `END` token (neither in the iterator nor in
the pushback slot). -/
def noEndTok (st : TokenStream) : Prop :=
  (∀ t ∈ st.rest, t.name ≠ TokName.END) ∧
    (∀ t, st.pushed = some t → t.name ≠ TokName.END)

/-- The key shapes CPython's `dict` accepts from this parser's output:
atoms (and `None`).  Parsed-template dicts are unhashable. -/
def hashableAtom : Value → Bool
  | Value.pyNone => true
  | Value.int _ => true
  | Value.float _ => true
  | Value.str _ => true
  | _ => false

/-- C7.  For every raw token text, `atomize` succeeds: `int`, then
`float`, then the whitespace-trimmed string are tried in order, and the
`str` fallback always succeeds on a string, so the
`RuntimeError('unknown token ...')` branch is unreachable and the result
is exactly `atomizeOk`. -/
theorem C7_atomize_total (token : String) :
    atomize token = Except.ok (atomizeOk token) := by
  unfold atomize atomizeOk
  cases h : convertInt (pyStrip token) with
  | some v => simp [h]
  | none =>
      cases h2 : convertFloat (pyStrip token) with
      | some v => simp [h, h2]
      | none => simp [h, h2, convertStr]

/-- C10.  On the lexically valid input `{{{{a}}b}}` the atom `b` reaches
`match_parameters` before any `PARAMETER` token of that invocation, so
the slot-alternation cursor `idx_cycle` is read before it was ever
assigned: `parse` fails with the uninitialized-variable error, not with
a tree and not with the `match_end` assertion. -/
theorem C10_uninitialized_cursor :
    parse "\x7b\x7b\x7b\x7ba\x7d\x7db\x7d\x7d" = Except.error PErr.unboundLocalIdxCycle := by
  with_unfolding_all rfl

/-- C5.  Parsing `{{box|first|x=1|second}}` into a reference yields name
`box`, args `["first", "second"]` in order, and kwargs `{"x": 1}` with
`1` coerced to an integer while `first`/`second` stay strings. -/
theorem C5_mixed_reference :
    fromString "\x7b\x7bbox|first|x=1|second\x7d\x7d" =
      Except.ok
        ⟨Value.str "box", [Value.str "first", Value.str "second"],
          [(Value.str "x", Value.int 1)]⟩ := by
  with_unfolding_all rfl

/-- C1, counterexample.  On `{{t||a}}` the empty parameter between the
two `|` produces no entry at all: the parsed parameter list is just
`[Arg "a"]`, and in particular contains no positional entry carrying the
"no value" placeholder. -/
theorem C1_counterexample :
    parse "\x7b\x7bt||a\x7d\x7d" =
        Except.ok (Value.dict (Value.str "t") [PEntry.arg (Value.str "a")]) ∧
      PEntry.arg Value.pyNone ∉ [PEntry.arg (Value.str "a")] := by
  refine ⟨by with_unfolding_all rfl, ?_⟩
  simp

/-- C1, amended.  A `Parameter` immediately followed by another
`Parameter` creates no entry: the pair manager drops any send whose
value is the "no value" marker (so the `(0, None)` send of a `PARAMETER`
token leaves the pair list unchanged), and `{{t||a}}` therefore parses,
without crashing, to a template whose only entry is the positional
`"a"`. -/
theorem C1_empty_parameter_skipped :
    (∀ pairs : List (Value × Value), pairsSend pairs 0 Value.pyNone = Except.ok pairs) ∧
      parse "\x7b\x7bt||a\x7d\x7d" =
        Except.ok (Value.dict (Value.str "t") [PEntry.arg (Value.str "a")]) := by
  exact ⟨fun pairs => rfl, by with_unfolding_all rfl⟩

/-- C2, counterexample.  On `a{b` the scanner matches the atom `a`, then
no pattern matches the lone `{`: the tokens cover only the first
character, the remainder `{b` is returned unconsumed, and `parse`
silently drops it (returning the empty node rather than a fully
tokenized input). -/
theorem C2_counterexample :
    lexScan ('a' :: '{' :: 'b' :: []) =
        ([atomTok (Value.str "a")], ['{', 'b']) ∧
      parse "a\x7bb" = Except.ok Value.emptyDict := by
  exact ⟨by with_unfolding_all rfl, by with_unfolding_all rfl⟩

/-- C3, counterexample.  `{{a{{b` has a `Begin` and no `End` before
end-of-stream, yet `parse` fails with the uninitialized-cursor
`UnboundLocalError` (the nested `Begin` is a value token arriving before
any `Parameter`), not with the `UnterminatedTemplate` assertion of
`match_end`. -/
theorem C3_counterexample :
    parse "\x7b\x7ba\x7b\x7bb" = Except.error PErr.unboundLocalIdxCycle := by
  with_unfolding_all rfl

/-- The scanner's remainder is a suffix of its input, and a nonempty
remainder starts at a lone brace; holds whenever the fuel covers the
input length (each matched pattern consumes at least one character). -/
theorem lexScanF_prefix_cover :
    ∀ (fuel : Nat) (cs : List Char), cs.length ≤ fuel →
      ∃ pre, pre ++ (lexScanF fuel cs).2 = cs ∧
        ((lexScanF fuel cs).2 = [] ∨ loneBraceStuck (lexScanF fuel cs).2 = true) := by
  intro fuel
  induction fuel with
  | zero =>
      intro cs hlen
      have hnil : cs = [] := List.eq_nil_of_length_eq_zero (Nat.le_zero.mp hlen)
      subst hnil
      exact ⟨[], rfl, Or.inl rfl⟩
  | succ fuel ih =>
      intro cs hlen
      match cs with
      | [] => exact ⟨[], rfl, Or.inl rfl⟩
      | c :: rest =>
        by_cases hc1 : c = '{'
        · subst hc1
          match rest with
          | [] =>
              exact ⟨[], by simp [lexScanF], Or.inr (by simp [lexScanF, loneBraceStuck, headIs])⟩
          | c2 :: rest2 =>
              by_cases hc2 : c2 = '{'
              · subst hc2
                have hlen2 : rest2.length ≤ fuel := by
                  simp only [List.length_cons] at hlen; omega
                obtain ⟨pre, hpre, hrem⟩ := ih rest2 hlen2
                refine ⟨'{' :: '{' :: pre, ?_, ?_⟩
                · simpa [lexScanF, consTok] using hpre
                · simpa [lexScanF, consTok] using hrem
              · refine ⟨[], by simp [lexScanF, hc2], Or.inr ?_⟩
                simp [lexScanF, hc2, loneBraceStuck, headIs]
        · by_cases hc2 : c = '}'
          · subst hc2
            match rest with
            | [] =>
                exact ⟨[], by simp [lexScanF], Or.inr (by simp [lexScanF, loneBraceStuck, headIs])⟩
            | c2 :: rest2 =>
                by_cases hc3 : c2 = '}'
                · subst hc3
                  have hlen2 : rest2.length ≤ fuel := by
                    simp only [List.length_cons] at hlen; omega
                  obtain ⟨pre, hpre, hrem⟩ := ih rest2 hlen2
                  refine ⟨'}' :: '}' :: pre, ?_, ?_⟩
                  · simpa [lexScanF, consTok] using hpre
                  · simpa [lexScanF, consTok] using hrem
                · refine ⟨[], by simp [lexScanF, hc3], Or.inr ?_⟩
                  simp [lexScanF, hc3, loneBraceStuck, headIs]
          · have hlen1 : rest.length ≤ fuel := by
              simp only [List.length_cons] at hlen; omega
            by_cases hc3 : c = '='
            · subst hc3
              obtain ⟨pre, hpre, hrem⟩ := ih rest hlen1
              refine ⟨'=' :: pre, ?_, ?_⟩
              · simpa [lexScanF, consTok] using hpre
              · simpa [lexScanF, consTok] using hrem
            · by_cases hc4 : c = '|'
              · subst hc4
                obtain ⟨pre, hpre, hrem⟩ := ih rest hlen1
                refine ⟨'|' :: pre, ?_, ?_⟩
                · simpa [lexScanF, consTok] using hpre
                · simpa [lexScanF, consTok] using hrem
              · have hsplit := List.takeWhile_append_dropWhile (p := isAtomChar) (l := rest)
                have hlen2 : (rest.dropWhile isAtomChar).length ≤ fuel := by
                  have hl := congrArg List.length hsplit
                  simp only [List.length_append] at hl
                  omega
                obtain ⟨pre, hpre, hrem⟩ := ih _ hlen2
                refine ⟨c :: (rest.takeWhile isAtomChar ++ pre), ?_, ?_⟩
                · have : (lexScanF (Nat.succ fuel) (c :: rest)).2 =
                      (lexScanF fuel (rest.dropWhile isAtomChar)).2 := by
                    simp [lexScanF, hc1, hc2, hc3, hc4, consTok]
                  rw [this, List.cons_append, List.append_assoc, hpre, hsplit]
                · have : (lexScanF (Nat.succ fuel) (c :: rest)).2 =
                      (lexScanF fuel (rest.dropWhile isAtomChar)).2 := by
                    simp [lexScanF, hc1, hc2, hc3, hc4, consTok]
                  rw [this]
                  exact hrem

/-- C2, amended.  The lexer covers the longest lexable prefix: the
unconsumed remainder is a suffix of the input, and it is nonempty only
when scanning stopped at a lone `{` or `}` (a brace not opening a
`{{`/`}}` delimiter) — `parse` then silently drops that remainder. -/
theorem C2_longest_prefix (cs : List Char) :
    ∃ pre, pre ++ (lexScan cs).2 = cs ∧
      ((lexScan cs).2 = [] ∨ loneBraceStuck (lexScan cs).2 = true) :=
  lexScanF_prefix_cover cs.length cs (Nat.le_refl _)

/-- The first token `parse` advances is the head of the lexed token list
(the synthetic end-of-stream token when it is empty). -/
theorem advance_initStream_name (s : String) :
    (advance (initStream s)).1.name = headTokName (lexTokens s) := by
  unfold initStream advance headTokName
  cases lexTokens s <;> rfl

/-- C4.  For every input whose first token is not `Begin` (plain text,
empty input), `parse` returns the empty node, and
`TemplateReference.from_string` then fails — reading `['parameters']` on
the empty dict raises the error the design calls `NoTemplateFound` —
instead of returning a reference with empty name/args/kwargs. -/
theorem C4_no_leading_template (s : String)
    (h : headTokName (lexTokens s) ≠ TokName.BEGIN) :
    parse s = Except.ok Value.emptyDict ∧
      fromString s = Except.error (RefErr.keyError "parameters") := by
  have hp : parse s = Except.ok Value.emptyDict := by
    show (matchTemplate (parseFuel s) (initStream s)).1 = Except.ok Value.emptyDict
    rw [show parseFuel s = Nat.succ (2 * (lexTokens s).length + 3) from rfl]
    rw [matchTemplate]
    rcases hadv : advance (initStream s) with ⟨t, st1⟩
    have ht : t.name ≠ TokName.BEGIN := by
      have hn := advance_initStream_name s
      rw [hadv] at hn
      exact fun hb => h (hn.symm.trans hb)
    simp [ht]
  refine ⟨hp, ?_⟩
  unfold fromString
  rw [hp]

/-- C4, witness: the input `plain text` has a non-`Begin` first token;
`parse` yields the empty node and the builder fails. -/
theorem C4_witness :
    headTokName (lexTokens "plain text") ≠ TokName.BEGIN ∧
      (parse "plain text" = Except.ok Value.emptyDict ∧
        fromString "plain text" = Except.error (RefErr.keyError "parameters")) :=
  ⟨by decide, C4_no_leading_template "plain text" (by decide)⟩

/-- `keyEq` holds exactly between equal hashable atoms. -/
theorem keyEq_iff (a b : Value) :
    keyEq a b = true ↔ a = b ∧ hashableAtom a = true := by
  cases a <;> cases b <;> simp [keyEq, hashableAtom]

/-- `keyEq` is symmetric. -/
theorem keyEq_symm (a b : Value) : keyEq a b = keyEq b a := by
  by_cases h : keyEq a b = true
  · obtain ⟨h1, _⟩ := (keyEq_iff a b).mp h
    subst h1
    rfl
  · by_cases h2 : keyEq b a = true
    · obtain ⟨h1, _⟩ := (keyEq_iff b a).mp h2
      subst h1
      exact absurd h2 h
    · rw [Bool.not_eq_true] at h h2
      rw [h, h2]

/-- `keyEq` is transitive. -/
theorem keyEq_trans {a b c : Value} (h1 : keyEq a b = true) (h2 : keyEq b c = true) :
    keyEq a c = true := by
  obtain ⟨h, _⟩ := (keyEq_iff a b).mp h1
  subst h
  exact h2

/-- Inserting a pair whose key differs from the head key commutes with
the head. -/
theorem pyDictInsert_cons {p : Value × Value} {d : List (Value × Value)}
    {kv : Value × Value} (h : keyEq p.1 kv.1 = false) :
    pyDictInsert (p :: d) kv = p :: pyDictInsert d kv := by
  unfold pyDictInsert
  rw [List.any_cons, h, Bool.false_or]
  by_cases hd : d.any (fun q => keyEq q.1 kv.1) = true
  · rw [if_pos hd, if_pos hd, List.map_cons, if_neg (by simp [h])]
  · rw [Bool.not_eq_true] at hd
    rw [hd]
    simp

/-- Lookup distributes over cons. -/
theorem dictLookup_cons (p : Value × Value) (d : List (Value × Value)) (k : Value) :
    dictLookup (p :: d) k = if keyEq p.1 k then some p.2 else dictLookup d k := by
  unfold dictLookup
  rw [List.find?_cons]
  by_cases h : keyEq p.1 k = true
  · simp [h]
  · simp only [Bool.not_eq_true] at h
    simp [h]

/-- Replacing the values at keys equal to `kv.1` does not change a
lookup at a key not equal to `kv.1`. -/
theorem dictLookup_map_update {d : List (Value × Value)} {kv : Value × Value}
    {k : Value} (hk : keyEq kv.1 k = false) :
    dictLookup (d.map (fun p => if keyEq p.1 kv.1 then (p.1, kv.2) else p)) k =
      dictLookup d k := by
  induction d with
  | nil => rfl
  | cons q d ih =>
      rw [List.map_cons]
      by_cases hq : keyEq q.1 kv.1 = true
      · have hqk : keyEq q.1 k = false := by
          by_contra hcon
          rw [Bool.not_eq_false] at hcon
          have hkk : keyEq kv.1 k = true :=
            keyEq_trans (keyEq_symm q.1 kv.1 ▸ hq) hcon
          simp [hkk] at hk
        rw [if_pos hq, dictLookup_cons, dictLookup_cons]
        simp only [hqk, if_false]
        exact ih
      · rw [Bool.not_eq_true] at hq
        rw [if_neg (by simp [hq]), dictLookup_cons, dictLookup_cons]
        by_cases hqk : keyEq q.1 k = true
        · simp [hqk]
        · rw [Bool.not_eq_true] at hqk
          simp only [hqk, if_false]
          exact ih

/-- The fundamental `dict` insertion law: looking up `k` after inserting
`kv` yields `kv.2` when the keys agree and the previous binding
otherwise. -/
theorem dictLookup_insert (d : List (Value × Value)) (kv : Value × Value) (k : Value) :
    dictLookup (pyDictInsert d kv) k =
      if keyEq kv.1 k then some kv.2 else dictLookup d k := by
  induction d with
  | nil =>
      unfold pyDictInsert dictLookup
      by_cases h : keyEq kv.1 k = true
      · simp [h]
      · rw [Bool.not_eq_true] at h
        simp [h]
  | cons p d ih =>
      by_cases hpk : keyEq p.1 kv.1 = true
      · have hins : pyDictInsert (p :: d) kv =
            (p.1, kv.2) :: d.map (fun q => if keyEq q.1 kv.1 then (q.1, kv.2) else q) := by
          unfold pyDictInsert
          rw [if_pos (by simp [List.any_cons, hpk])]
          simp [hpk]
        rw [hins, dictLookup_cons]
        by_cases hk : keyEq kv.1 k = true
        · have hp1k : keyEq p.1 k = true := keyEq_trans hpk hk
          simp [hp1k, hk]
        · rw [Bool.not_eq_true] at hk
          have hp1k : keyEq p.1 k = false := by
            by_contra hcon
            rw [Bool.not_eq_false] at hcon
            have hkk : keyEq kv.1 k = true :=
              keyEq_trans (keyEq_symm p.1 kv.1 ▸ hpk) hcon
            simp [hkk] at hk
          simp only [hp1k, if_false, hk]
          rw [dictLookup_map_update hk, dictLookup_cons]
          simp [hp1k]
      · rw [Bool.not_eq_true] at hpk
        rw [pyDictInsert_cons hpk, dictLookup_cons, dictLookup_cons]
        by_cases hp1k : keyEq p.1 k = true
        · have hk : keyEq kv.1 k = false := by
            by_contra hcon
            rw [Bool.not_eq_false] at hcon
            have hkk : keyEq p.1 kv.1 = true :=
              keyEq_trans hp1k (keyEq_symm kv.1 k ▸ hcon)
            simp [hkk] at hpk
          simp [hp1k, hk]
        · rw [Bool.not_eq_true] at hp1k
          simp only [hp1k, if_false]
          exact ih

/-- Folding `dict` insertions over a pair list: a lookup returns the
value of the last pair whose key matches, else falls back to the
accumulator. -/
theorem pyDict_lookup_gen (ps : List (Value × Value)) :
    ∀ (acc : List (Value × Value)) (k : Value),
      dictLookup (ps.foldl pyDictInsert acc) k =
        (match (ps.filter (fun p => keyEq p.1 k)).getLast? with
         | some p => some p.2
         | none => dictLookup acc k) := by
  induction ps using List.reverseRecOn with
  | nil => intro acc k; rfl
  | append_singleton ps p ih =>
      intro acc k
      rw [List.foldl_append]
      simp only [List.foldl_cons, List.foldl_nil]
      rw [dictLookup_insert, List.filter_append]
      by_cases hp : keyEq p.1 k = true
      · simp [hp, List.getLast?_concat]
      · rw [Bool.not_eq_true] at hp
        rw [hp, if_neg (by simp)]
        have hfil : List.filter (fun q => keyEq q.1 k) [p] = [] := by
          simp [hp]
        rw [hfil, List.append_nil]
        exact ih acc k

/-- Last-write-wins for the kwargs dict built by `from_string`: the
binding of `k` is the value of the last pair whose key equals `k`. -/
theorem pyDict_lookup_lastWins (ps : List (Value × Value)) (k : Value) :
    dictLookup (pyDict ps) k =
      ((ps.filter (fun p => keyEq p.1 k)).getLast?).map (fun p => p.2) := by
  unfold pyDict
  rw [pyDict_lookup_gen ps [] k]
  cases (ps.filter (fun p => keyEq p.1 k)).getLast? <;> rfl

/-- C6.  `{{t|k=1|k=2}}` parses to a node whose parameter list keeps
both keyword entries for `k` in source order; the reference builder's
kwargs dict maps `k` to `2` without error; and, in general, a lookup in
the dict built from any pair sequence returns the value of the last pair
with that key (last-write-wins). -/
theorem C6_duplicate_keys :
    parse "\x7b\x7bt|k=1|k=2\x7d\x7d" =
        Except.ok (Value.dict (Value.str "t")
          [PEntry.kwarg (Value.str "k") (Value.int 1),
            PEntry.kwarg (Value.str "k") (Value.int 2)]) ∧
      fromString "\x7b\x7bt|k=1|k=2\x7d\x7d" =
        Except.ok ⟨Value.str "t", [], [(Value.str "k", Value.int 2)]⟩ ∧
      ∀ (ps : List (Value × Value)) (k : Value),
        dictLookup (pyDict ps) k =
          ((ps.filter (fun p => keyEq p.1 k)).getLast?).map (fun p => p.2) :=
  ⟨by with_unfolding_all rfl, by with_unfolding_all rfl, pyDict_lookup_lastWins⟩

/-- `advance` leaves the pushback slot empty. -/
theorem advance_pushed_none (st : TokenStream) : ((advance st).2).pushed = none := by
  rcases st with ⟨p, r, v⟩
  cases p <;> cases r <;> rfl

/-- `advance` does not touch the ghost violation flag. -/
theorem advance_violated (st : TokenStream) : ((advance st).2).violated = st.violated := by
  rcases st with ⟨p, r, v⟩
  cases p <;> cases r <;> rfl

/-- On a stream without `END` tokens, `advance` never yields an `END`
token and preserves the property. -/
theorem noEnd_advance {st : TokenStream} (h : noEndTok st) :
    (advance st).1.name ≠ TokName.END ∧ noEndTok (advance st).2 := by
  obtain ⟨hr, hp⟩ := h
  rcases st with ⟨p, r, v⟩
  cases p with
  | some t =>
      exact ⟨hp t rfl, hr, fun t' ht' => by cases ht'⟩
  | none =>
      cases r with
      | nil =>
          refine ⟨?_, hr, hp⟩
          intro hcon
          cases hcon
      | cons t r' =>
          refine ⟨hr t (List.mem_cons_self _ _), ?_, ?_⟩
          · exact fun t' ht' => hr t' (List.mem_cons_of_mem _ ht')
          · intro t' ht'
            cases ht'

/-- Pushing back a non-`END` token preserves `noEndTok`. -/
theorem noEnd_pushBack {st : TokenStream} {t : Tok} (h : noEndTok st)
    (ht : t.name ≠ TokName.END) : noEndTok (pushBack t st) := by
  refine ⟨h.1, ?_⟩
  intro t' ht'
  injection ht' with he
  exact he ▸ ht

/-- `match_atom` preserves `noEndTok`. -/
theorem noEnd_matchAtom {st : TokenStream} (h : noEndTok st) :
    noEndTok (matchAtom st).2 := by
  unfold matchAtom
  rcases hadv : advance st with ⟨t, st1⟩
  have hna := noEnd_advance h
  rw [hadv] at hna
  obtain ⟨htE, hne1⟩ := hna
  by_cases ht : t.name = TokName.ATOM
  · simpa [ht] using hne1
  · simpa [ht] using noEnd_pushBack hne1 htE

/-- A non-`BEGIN` first token short-circuits `match_template` into the
empty dict, the token being pushed back. -/
theorem matchTemplate_not_begin (fuel : Nat) (st : TokenStream)
    (h : (advance st).1.name ≠ TokName.BEGIN) :
    matchTemplate (Nat.succ fuel) st =
      (Except.ok Value.emptyDict, pushBack (advance st).1 (advance st).2) := by
  rw [matchTemplate]
  rcases hadv : advance st with ⟨t, st1⟩
  rw [hadv] at h
  simp only at h
  simp [h]

/-- Pushing back right after an `advance` never overwrites a pending
token: the ghost flag is untouched. -/
theorem pushBack_advance_violated (t : Tok) (st : TokenStream) :
    (pushBack t ((advance st).2)).violated = st.violated := by
  unfold pushBack
  rw [advance_pushed_none, advance_violated]
  simp

/-- `match_atom` leaves the ghost violation flag unchanged. -/
theorem matchAtom_violated (st : TokenStream) :
    ((matchAtom st).2).violated = st.violated := by
  unfold matchAtom
  rcases hadv : advance st with ⟨t, st1⟩
  have hv : st1.violated = st.violated := by
    have := advance_violated st
    rw [hadv] at this
    exact this
  have hpn : st1.pushed = none := by
    have := advance_pushed_none st
    rw [hadv] at this
    exact this
  by_cases ht : t.name = TokName.ATOM
  · simp [ht, hv]
  · simp [ht, pushBack, hpn, hv]

/-- `match_end` leaves the ghost violation flag unchanged. -/
theorem matchEnd_violated (st : TokenStream) :
    ((matchEnd st).2).violated = st.violated := by
  unfold matchEnd
  rcases hadv : advance st with ⟨t, st1⟩
  have hv : st1.violated = st.violated := by
    have := advance_violated st
    rw [hadv] at this
    exact this
  by_cases ht : t.name = TokName.END
  · simp [ht, hv]
  · simp [ht, hv]

/-- No production of the parser ever flips the ghost violation flag:
every pushback happens on the freshly advanced stream, whose slot is
empty. -/
theorem parser_violated (fuel : Nat) :
    (∀ pairs cyc st, ((matchParameters fuel pairs cyc st).2).violated = st.violated) ∧
      (∀ name st, ((matchTemplateTail fuel name st).2).violated = st.violated) ∧
      (∀ st, ((matchTemplate fuel st).2).violated = st.violated) := by
  induction fuel with
  | zero =>
      refine ⟨fun pairs cyc st => ?_, fun name st => ?_, fun st => ?_⟩
      · rw [matchParameters]
      · rw [matchTemplateTail, matchParameters]
      · rw [matchTemplate]
  | succ fuel ih =>
      obtain ⟨ihP, ihTail, ihT⟩ := ih
      have hP : ∀ pairs cyc st,
          ((matchParameters (Nat.succ fuel) pairs cyc st).2).violated = st.violated := by
        intro pairs cyc st
        rw [matchParameters]
        split
        next token st1 hadv =>
          have hv : st1.violated = st.violated := by
            have := advance_violated st
            rw [hadv] at this
            exact this
          have hpn : st1.pushed = none := by
            have := advance_pushed_none st
            rw [hadv] at this
            exact this
          have hvpb : (pushBack token st1).violated = st.violated := by
            unfold pushBack
            rw [hpn, hv]
            simp
          split
          · split
            next e hps => simp [pairsSend] at hps
            next pairs2 hps =>
              rw [ihP]
              exact hv
          · split
            · exact hv
            next i =>
              split
              next e hps => exact hv
              next pairs2 hps =>
                rw [ihP]
                exact hv
          · split
            · exact hvpb
            next i =>
              split
              next e st3 hmt =>
                have := ihT (pushBack token st1)
                rw [hmt] at this
                rw [this]
                exact hvpb
              next tmpl st3 hmt =>
                have hv3 : st3.violated = st.violated := by
                  have := ihT (pushBack token st1)
                  rw [hmt] at this
                  rw [this]
                  exact hvpb
                split
                next e hps => exact hv3
                next pairs2 hps =>
                  rw [ihP]
                  exact hv3
          · rw [ihP]
            exact hv
          · exact hvpb
      have hTail : ∀ name st,
          ((matchTemplateTail (Nat.succ fuel) name st).2).violated = st.violated := by
        intro name st
        rw [matchTemplateTail]
        split
        next e st1 hmp =>
          have := hP [] none st
          rw [hmp] at this
          exact this
        next entries st1 hmp =>
          have h1 : st1.violated = st.violated := by
            have := hP [] none st
            rw [hmp] at this
            exact this
          split
          next e st2 hme =>
            have := matchEnd_violated st1
            rw [hme] at this
            rw [this]
            exact h1
          next u st2 hme =>
            have := matchEnd_violated st1
            rw [hme] at this
            rw [this]
            exact h1
      have hT : ∀ st, ((matchTemplate (Nat.succ fuel) st).2).violated = st.violated := by
        intro st
        rw [matchTemplate]
        split
        next token st1 hadv =>
          have hv : st1.violated = st.violated := by
            have := advance_violated st
            rw [hadv] at this
            exact this
          have hpn : st1.pushed = none := by
            have := advance_pushed_none st
            rw [hadv] at this
            exact this
          split
          · split
            next name st2 hma =>
              have h2 : st2.violated = st.violated := by
                have := matchAtom_violated st1
                rw [hma] at this
                rw [this]
                exact hv
              rw [ihTail]
              exact h2
            next st2 hma =>
              have h2 : st2.violated = st.violated := by
                have := matchAtom_violated st1
                rw [hma] at this
                rw [this]
                exact hv
              split
              next e st3 hmt =>
                have := ihT st2
                rw [hmt] at this
                rw [this]
                exact h2
              next name st3 hmt =>
                have h3 : st3.violated = st.violated := by
                  have := ihT st2
                  rw [hmt] at this
                  rw [this]
                  exact h2
                rw [ihTail]
                exact h3
          · unfold pushBack
            rw [hpn, hv]
            simp
      exact ⟨hP, hTail, hT⟩

/-- C9.  Throughout any run of `parse`, the single pushback slot is
empty at every point a token is pushed back: the ghost flag that records
an overwriting pushback (the `StreamProtocolViolation` state) is still
clear in the final stream, for every input. -/
theorem C9_no_pushback_overwrite (s : String) :
    ((parseFull s).2).violated = false := by
  unfold parseFull
  rw [(parser_violated (parseFuel s)).2.2 (initStream s)]
  rfl

/-- On a stream containing no `END` token, the parameter loop either
fails or stops having pushed back the synthetic end-of-stream token, a
template whose `BEGIN` has been seen never completes, and a completed
(non-`BEGIN`) `match_template` preserves the property. -/
theorem noEnd_run (fuel : Nat) :
    (∀ pairs cyc st, noEndTok st →
        (∃ e, (matchParameters fuel pairs cyc st).1 = Except.error e) ∨
          (∃ es st2, matchParameters fuel pairs cyc st = (Except.ok es, st2) ∧
            (∃ t, st2.pushed = some t ∧ t.name = TokName.NONE) ∧ noEndTok st2)) ∧
      (∀ name st, noEndTok st → ∃ e, (matchTemplateTail fuel name st).1 = Except.error e) ∧
      (∀ st, noEndTok st → (advance st).1.name = TokName.BEGIN →
        ∃ e, (matchTemplate fuel st).1 = Except.error e) ∧
      (∀ st, noEndTok st → ∀ v st2, matchTemplate fuel st = (Except.ok v, st2) →
        noEndTok st2) := by
  induction fuel with
  | zero =>
      refine ⟨fun pairs cyc st h => Or.inl ⟨PErr.outOfFuel, by rw [matchParameters]⟩,
        fun name st h => ⟨PErr.outOfFuel, by rw [matchTemplateTail, matchParameters]⟩,
        fun st h hb => ⟨PErr.outOfFuel, by rw [matchTemplate]⟩,
        fun st h v st2 hok => ?_⟩
      rw [matchTemplate] at hok
      simp at hok
  | succ fuel ih =>
      obtain ⟨ihP, ihTail, ihT, ihD⟩ := ih
      have hP : ∀ pairs cyc st, noEndTok st →
          (∃ e, (matchParameters (Nat.succ fuel) pairs cyc st).1 = Except.error e) ∨
            (∃ es st2, matchParameters (Nat.succ fuel) pairs cyc st = (Except.ok es, st2) ∧
              (∃ t, st2.pushed = some t ∧ t.name = TokName.NONE) ∧ noEndTok st2) := by
        intro pairs cyc st hne
        rw [matchParameters]
        split
        next token st1 hadv =>
          have hna := noEnd_advance hne
          rw [hadv] at hna
          obtain ⟨htE, hne1⟩ := hna
          split
          · split
            next e hps => simp [pairsSend] at hps
            next pairs2 hps => exact ihP pairs2 (some 0) st1 hne1
          · split
            · exact Or.inl ⟨PErr.unboundLocalIdxCycle, rfl⟩
            next i =>
              split
              next e hps => exact Or.inl ⟨e, rfl⟩
              next pairs2 hps => exact ihP pairs2 (some (1 - i)) st1 hne1
          · next hbt =>
              have hpb : noEndTok (pushBack token st1) :=
                noEnd_pushBack hne1 (by rw [hbt]; intro hcon; cases hcon)
              split
              · exact Or.inl ⟨PErr.unboundLocalIdxCycle, rfl⟩
              next i =>
                split
                next e st3 hmt => exact Or.inl ⟨e, rfl⟩
                next tmpl st3 hmt =>
                  obtain ⟨e, he⟩ := ihT (pushBack token st1) hpb (by exact hbt)
                  rw [hmt] at he
                  simp at he
          · exact ihP pairs cyc st1 hne1
          · next x hn1 hn2 hn3 hn4 =>
              have htN : token.name = TokName.NONE := by
                cases hq : token.name
                · exact absurd hq hn3
                · exact absurd hq htE
                · exact absurd hq hn2
                · exact absurd hq hn4
                · exact absurd hq hn1
                · rfl
              refine Or.inr ⟨classifyPairs pairs, pushBack token st1, rfl,
                ⟨token, rfl, htN⟩, noEnd_pushBack hne1 ?_⟩
              rw [htN]
              intro hcon
              cases hcon
      have hTail : ∀ name st, noEndTok st →
          ∃ e, (matchTemplateTail (Nat.succ fuel) name st).1 = Except.error e := by
        intro name st hne
        rw [matchTemplateTail]
        rcases hP [] none st hne with ⟨e, he⟩ | ⟨es, st2, heq, ⟨t, hpt, htN⟩, hne2⟩
        · split
          next e' st1 hmp => exact ⟨e', rfl⟩
          next entries st1 hmp =>
            rw [hmp] at he
            simp at he
        · split
          next e' st1 hmp => exact ⟨e', rfl⟩
          next entries st1 hmp =>
            rw [heq] at hmp
            injection hmp with hh1 hh2
            subst hh2
            have hme : (matchEnd st2).1 = Except.error (PErr.assertEnd TokName.NONE) := by
              unfold matchEnd advance
              rw [hpt]
              simp [htN]
            split
            next e2 st3 hme2 => exact ⟨e2, rfl⟩
            next u st3 hme2 =>
              rw [hme2] at hme
              simp at hme
      have hC : ∀ st, noEndTok st → (advance st).1.name = TokName.BEGIN →
          ∃ e, (matchTemplate (Nat.succ fuel) st).1 = Except.error e := by
        intro st hne hb
        rw [matchTemplate]
        split
        next token st1 hadv =>
          have hna := noEnd_advance hne
          rw [hadv] at hna
          obtain ⟨htE, hne1⟩ := hna
          rw [hadv] at hb
          simp only at hb
          split
          · split
            next name st2 hma =>
              have hne2 : noEndTok st2 := by
                have := noEnd_matchAtom hne1
                rw [hma] at this
                exact this
              exact ihTail name st2 hne2
            next st2 hma =>
              have hne2 : noEndTok st2 := by
                have := noEnd_matchAtom hne1
                rw [hma] at this
                exact this
              split
              next e st3 hmt => exact ⟨e, rfl⟩
              next name st3 hmt =>
                exact ihTail name st3 (ihD st2 hne2 name st3 hmt)
          · next hcon => exact absurd hb hcon
      have hD : ∀ st, noEndTok st → ∀ v st2,
          matchTemplate (Nat.succ fuel) st = (Except.ok v, st2) → noEndTok st2 := by
        intro st hne v st2 hok
        by_cases hb : (advance st).1.name = TokName.BEGIN
        · obtain ⟨e, he⟩ := hC st hne hb
          rw [hok] at he
          simp at he
        · have heq := matchTemplate_not_begin fuel st hb
          rw [heq] at hok
          injection hok with hh1 hh2
          subst hh2
          obtain ⟨htE, hne1⟩ := noEnd_advance hne
          exact noEnd_pushBack hne1 htE
      exact ⟨hP, hTail, hC, hD⟩

/-- C3, amended.  For every input whose first token is `Begin` and whose
token stream contains no `End`, `parse` fails — it never silently
returns a partial tree.  (The failure is the `match_end` assertion the
design calls `UnterminatedTemplate` in the common case, but the
uninitialized-cursor `UnboundLocalError` when a value token precedes any
`Parameter` token of the loop.) -/
theorem C3_unterminated_always_fails (s : String)
    (h1 : headTokName (lexTokens s) = TokName.BEGIN)
    (h2 : TokName.END ∉ (lexTokens s).map Tok.name) :
    ∃ e, parse s = Except.error e := by
  have hne : noEndTok (initStream s) := by
    constructor
    · intro t ht hcon
      exact h2 (by rw [← hcon]; exact List.mem_map_of_mem Tok.name ht)
    · intro t hcon
      simp [initStream] at hcon
  have hb : (advance (initStream s)).1.name = TokName.BEGIN := by
    rw [advance_initStream_name]
    exact h1
  obtain ⟨e, he⟩ := (noEnd_run (parseFuel s)).2.2.1 (initStream s) hne hb
  exact ⟨e, he⟩

/-- C3, witness: `{{cite|a}}` without its closing braces starts with
`Begin`, has no `End` token, and `parse` fails on it. -/
theorem C3_witness :
    (headTokName (lexTokens "\x7b\x7bcite|a") = TokName.BEGIN ∧
      TokName.END ∉ (lexTokens "\x7b\x7bcite|a").map Tok.name) ∧
      ∃ e, parse "\x7b\x7bcite|a" = Except.error e :=
  ⟨⟨by decide, by decide⟩,
    C3_unterminated_always_fails "\x7b\x7bcite|a" (by decide) (by decide)⟩
